import Mathlib

/-!
Shallow embedding of the Bitcoin price monitor (service-a/app.py).

Modelling conventions:
* Prices are rationals (`ℚ`), standing in for Python floats; averages are
  exact arithmetic means, matching the spec's "within floating rounding
  tolerance" reading.
* Instants (both `datetime.now()` and `time.time()` scores) are natural
  numbers counting seconds; `isoformat` timestamps are kept as the same
  instants.
* Network effects are inputs: each API adapter carries the outcome of its
  request-plus-parse for the cycle under consideration (`Option ℚ`,
  `none` for any network error, bad status or parse failure).
* A persisted Redis record is `Option PriceData`: `none` models a record
  whose JSON fails to load (or lacks the needed keys), which in Python
  raises inside the processing loop.
-/

namespace ServiceA

/-- One persisted price observation: the JSON object
`{"price": ..., "source": ..., "timestamp": ...}`. -/
structure PriceData where
  price : ℚ
  source : String
  timestamp : ℕ
  deriving DecidableEq, Repr

/-- The Redis key space used by the monitor: the `bitcoin:current` slot and
the `bitcoin:history` sorted set (score = fetch time, ascending).
`current = some none` models a present but malformed snapshot record;
an entry `(s, none)` in `history` models a malformed history record. -/
structure RedisStore where
  current : Option (Option PriceData)
  history : List (ℕ × Option PriceData)
  deriving DecidableEq, Repr

/-- In-memory state of `BitcoinPriceMonitor` (plus its Redis handle:
`none` = disconnected, memory-only mode). -/
structure MonitorState where
  redis_client : Option RedisStore
  prices : List ℚ
  current_price : Option ℚ
  last_updated : Option ℕ
  current_source : Option String
  cached_average : ℚ
  last_average_calculation : Option ℕ
  deriving DecidableEq, Repr

/-- The window capacity: `deque(maxlen=10)`. -/
def windowCapacity : ℕ := 10

/-- The retention horizon / average window, in seconds (`600`). -/
def retentionSeconds : ℕ := 600

/-- The fresh in-memory state set up by `__init__` before `_load_from_redis`
runs (empty deque, no current price, average cache zeroed and never
computed). -/
def emptyState (rc : Option RedisStore) : MonitorState :=
  { redis_client := rc
    prices := []
    current_price := none
    last_updated := none
    current_source := none
    cached_average := 0
    last_average_calculation := none }

/-- `deque(maxlen=cap).append`: push right, evict from the left once the
deque is full. -/
def dequeAppend (cap : ℕ) (xs : List ℚ) (x : ℚ) : List ℚ :=
  let ys := xs ++ [x]
  ys.drop (ys.length - cap)

/-- One API adapter for one cycle: its name together with the outcome of
`requests.get` + `raise_for_status` + its parser (`none` on any failure). -/
structure Adapter where
  name : String
  fetch : Option ℚ
  deriving DecidableEq, Repr

/-- `get_bitcoin_price`: try the APIs in list order, return the first
success as `(price, name)`; the Python sentinel `(None, None)` is `none`. -/
def get_bitcoin_price : List Adapter → Option (ℚ × String)
  | [] => none
  | a :: rest =>
    match a.fetch with
    | some p => some (p, a.name)
    | none => get_bitcoin_price rest

/-- Insertion into the sorted set by score, keeping ascending order
(Redis `ZADD`). -/
def insertByScore (e : ℕ × Option PriceData) :
    List (ℕ × Option PriceData) → List (ℕ × Option PriceData)
  | [] => [e]
  | x :: xs => if e.1 < x.1 then e :: x :: xs else x :: insertByScore e xs

/-- `_save_to_redis`: no-op when disconnected; otherwise overwrite
`bitcoin:current`, `ZADD` the observation with score `now`, then
`ZREMRANGEBYSCORE 0 (now - 600)` in the same write. -/
def save_to_redis (rc : Option RedisStore) (now : ℕ) (price : ℚ)
    (source : String) : Option RedisStore :=
  match rc with
  | none => none
  | some r =>
    let rec_ : PriceData := ⟨price, source, now⟩
    let hist := insertByScore (now, some rec_) r.history
    some { current := some (some rec_)
           history := hist.filter (fun e => !(decide (e.1 ≤ now - retentionSeconds))) }

/-- `ZRANGEBYSCORE bitcoin:history (now - 600) +inf`: the in-horizon slice
of the history, in stored (ascending) order. -/
def zrangeSince (hist : List (ℕ × Option PriceData)) (now : ℕ) :
    List (ℕ × Option PriceData) :=
  hist.filter (fun e => decide (now - retentionSeconds ≤ e.1))

/-- The rehydration loop over a history batch: append each record's price to
the deque; a malformed record raises, so the loop stops there and the
appends made so far are kept (the surrounding `except` only logs). -/
def appendHistoryBatch (ps : List ℚ) : List (Option PriceData) → List ℚ
  | [] => ps
  | none :: _ => ps
  | some d :: rest => appendHistoryBatch (dequeAppend windowCapacity ps d.price) rest

/-- `_load_from_redis`: when connected, read `bitcoin:current` (a malformed
snapshot raises before any assignment, aborting rehydration entirely), then
fold the in-horizon history into the deque, stopping at the first malformed
record. -/
def load_from_redis (now : ℕ) (st : MonitorState) : MonitorState :=
  match st.redis_client with
  | none => st
  | some r =>
    match r.current with
    | some none => st
    | cur =>
      let st1 :=
        match cur with
        | some (some d) =>
          { st with current_price := some d.price
                    current_source := some d.source
                    last_updated := some d.timestamp }
        | _ => st
      { st1 with
        prices := appendHistoryBatch st1.prices ((zrangeSince r.history now).map Prod.snd) }

/-- `__init__` after `_connect_redis` resolved to `rc`: fresh in-memory
fields, then `_load_from_redis`. -/
def initState (rc : Option RedisStore) (now : ℕ) : MonitorState :=
  load_from_redis now (emptyState rc)

/-- The batch-collection loop of `_get_redis_average`: build the list of
prices; a malformed record raises, losing the whole batch (`none`). -/
def collectPrices : List (Option PriceData) → Option (List ℚ)
  | [] => some []
  | none :: _ => none
  | some d :: rest => (collectPrices rest).map (fun ps => d.price :: ps)

/-- `_get_redis_average`: `none` when disconnected, when the in-horizon
range is empty, or when any record in it is malformed (the exception
discards the whole batch); otherwise the arithmetic mean of the range. -/
def get_redis_average (rc : Option RedisStore) (now : ℕ) : Option ℚ :=
  match rc with
  | none => none
  | some r =>
    let batch := (zrangeSince r.history now).map Prod.snd
    if batch.isEmpty then none
    else
      match collectPrices batch with
      | none => none
      | some ps => some (ps.sum / (ps.length : ℚ))

/-- `_should_recalculate_average`: true when never computed, or when at
least 10 minutes have elapsed since the last computation. -/
def should_recalculate_average (st : MonitorState) (now : ℕ) : Bool :=
  match st.last_average_calculation with
  | none => true
  | some t => decide (retentionSeconds ≤ now - t)

/-- `calculate_average`: return the cached value unless a recompute is due;
when due, average the deque if non-empty, else fall back to the Redis range
(Python truthiness: a missing or zero fallback yields 0), cache the result
and stamp the computation time. Returns (value, updated state). -/
def calculate_average (st : MonitorState) (now : ℕ) : ℚ × MonitorState :=
  if !(should_recalculate_average st now) then
    (st.cached_average, st)
  else
    let new_average :=
      if 0 < st.prices.length then
        st.prices.sum / (st.prices.length : ℚ)
      else
        match get_redis_average st.redis_client now with
        | none => 0
        | some a => if a = 0 then 0 else a
    (new_average,
      { st with cached_average := new_average
                last_average_calculation := some now })

/-- One iteration of the `while True` loop in `run_monitor`, given the
fetch outcome of this cycle: on success append to the deque, update the
current-price fields, bump the minute counter, persist to Redis, and every
10th success recompute the average for the log line; on failure only log.
Returns (state, minute counter) after the cycle. -/
def run_monitor_cycle (st : MonitorState) (fetched : Option (ℚ × String))
    (now : ℕ) (minute_counter : ℕ) : MonitorState × ℕ :=
  match fetched with
  | none => (st, minute_counter)
  | some (price, source) =>
    let st1 :=
      { st with prices := dequeAppend windowCapacity st.prices price
                current_price := some price
                current_source := some source
                last_updated := some now }
    let mc := minute_counter + 1
    let st2 :=
      { st1 with redis_client := save_to_redis st1.redis_client now price source }
    let st3 := if mc % 10 = 0 then (calculate_average st2 now).2 else st2
    (st3, mc)

/-- The `/service-a` JSON response body (dollar formatting elided: the
`average_10min` field is `none` exactly when the key is omitted; its
rendering as a string, including the "Not enough data" text for
non-positive averages, is presentation only). -/
structure CurrentResponse where
  current_price : ℚ
  last_updated : Option ℕ
  price_history_count : ℕ
  data_source : Option String
  average_10min : Option ℚ
  deriving DecidableEq, Repr

/-- `get_current_price` (the `/service-a` route): 503 (`none`) until the
first price exists; otherwise the base response, with `average_10min`
present only when the recompute is due on this call (in which case the
recompute runs and mutates the monitor). Returns (response, state). -/
def get_current_price (st : MonitorState) (now : ℕ) :
    Option CurrentResponse × MonitorState :=
  match st.current_price with
  | none => (none, st)
  | some p =>
    if should_recalculate_average st now then
      let r := calculate_average st now
      (some { current_price := p
              last_updated := st.last_updated
              price_history_count := st.prices.length
              data_source := st.current_source
              average_10min := some r.1 }, r.2)
    else
      (some { current_price := p
              last_updated := st.last_updated
              price_history_count := st.prices.length
              data_source := st.current_source
              average_10min := none }, st)

/-- The `/health` JSON response body. -/
structure HealthResponse where
  status : String
  has_price_data : Bool
  last_successful_source : Option String
  redis_status : String
  deriving DecidableEq, Repr

/-- `health_check` (the `/health` route). -/
def health_check (st : MonitorState) : HealthResponse :=
  { status := if st.current_price.isSome then "healthy" else "unhealthy"
    has_price_data := st.current_price.isSome
    last_successful_source := st.current_source
    redis_status := if st.redis_client.isSome then "connected" else "disconnected" }

/-- The history of an optional Redis handle (empty when disconnected). -/
def historyOf : Option RedisStore → List (ℕ × Option PriceData)
  | none => []
  | some r => r.history

/-- The prices recorded in a batch of persisted entries, in stored order. -/
def recordedPrices (es : List (ℕ × Option PriceData)) : List ℚ :=
  es.filterMap (fun e => e.2.map PriceData.price)

/-- Spec-side comparator for the cold-start refinement: the arithmetic mean
that results from appending the given observations, in order, to an empty
in-memory rolling window and averaging that window (0 when there is
nothing to average). -/
def inMemoryWindowAverage (ps : List ℚ) : ℚ :=
  let w := ps.foldl (dequeAppend windowCapacity) []
  if w.length = 0 then 0 else w.sum / (w.length : ℚ)

/-- Iterated monitor cycles over a list of successful fetch outcomes
`(price, source, time)`, threading state and the minute counter. -/
def run_monitor_successes (st : MonitorState) (mc : ℕ) :
    List (ℚ × String × ℕ) → MonitorState × ℕ
  | [] => (st, mc)
  | f :: rest =>
    let r := run_monitor_cycle st (some (f.1, f.2.1)) f.2.2 mc
    run_monitor_successes r.1 r.2 rest

/-- The fragment of JSON needed to model the CoinGecko payload shape:
numbers and string-keyed objects. -/
inductive Json where
  | num : ℚ → Json
  | obj : List (String × Json) → Json

/-- Python dictionary subscript `data[k]` on a parsed JSON value: the value
under key `k`, or an exception (`none`) when absent or not an object. -/
def Json.get? (k : String) : Json → Option Json
  | .obj fields => fields.lookup k
  | _ => none

/-- Python `float(x)` applied to a JSON value: the number itself for JSON
numbers, an exception (`none`) otherwise. (CoinGecko carries the price as a
JSON number; coercion of numeric strings is not exercised by this payload
shape and is not modelled.) -/
def pyFloat : Json → Option ℚ
  | .num q => some q
  | _ => none

/-- `_parse_coingecko`: `float(data["bitcoin"]["usd"])`; any missing key or
non-numeric value raises, which the caller observes as adapter failure. -/
def parse_coingecko (j : Json) : Option ℚ :=
  (j.get? "bitcoin").bind (fun b => (b.get? "usd").bind pyFloat)

/-- A syntactically valid CoinGecko payload carrying a negative price. -/
def negativePayload : Json :=
  .obj [("bitcoin", .obj [("usd", .num (-1))])]

/-- A store whose in-horizon history holds 11 well-formed observations
(one more than the window capacity): prices 1100 then ten 0s. -/
def elevenPointStore : RedisStore :=
  { current := some (some ⟨42, "CoinDesk", 12⟩)
    history :=
      [(1, some ⟨1100, "CoinGecko", 1⟩), (2, some ⟨0, "CoinGecko", 2⟩),
       (3, some ⟨0, "CoinGecko", 3⟩), (4, some ⟨0, "CoinGecko", 4⟩),
       (5, some ⟨0, "CoinGecko", 5⟩), (6, some ⟨0, "CoinGecko", 6⟩),
       (7, some ⟨0, "CoinGecko", 7⟩), (8, some ⟨0, "CoinGecko", 8⟩),
       (9, some ⟨0, "CoinGecko", 9⟩), (10, some ⟨0, "CoinGecko", 10⟩),
       (11, some ⟨0, "CoinGecko", 11⟩)] }

/-- A store whose in-horizon history holds a well-formed record, then a
malformed one, then another well-formed one. -/
def malformedMiddleStore : RedisStore :=
  { current := none
    history :=
      [(1, some ⟨10, "CoinGecko", 1⟩), (2, none), (3, some ⟨20, "CoinGecko", 3⟩)] }

/-- A store whose in-horizon history holds two well-formed observations,
fewer than the window capacity. -/
def twoPointStore : RedisStore :=
  { current := none
    history := [(1, some ⟨10, "CoinGecko", 1⟩), (2, some ⟨20, "CoinGecko", 2⟩)] }

/-! ### Helper lemmas -/

theorem dequeAppend_length (cap : ℕ) (xs : List ℚ) (x : ℚ) :
    (dequeAppend cap xs x).length = min cap (xs.length + 1) := by
  simp [dequeAppend]
  omega

theorem foldl_dequeAppend_suffix (cap : ℕ) (l : List ℚ) :
    ∀ acc : List ℚ, acc.length ≤ cap →
      l.foldl (dequeAppend cap) acc = (acc ++ l).drop ((acc ++ l).length - cap) := by
  induction l with
  | nil =>
    intro acc h
    simp only [List.foldl_nil, List.append_nil]
    rw [Nat.sub_eq_zero_of_le h, List.drop_zero]
  | cons x t ih =>
    intro acc h
    rw [List.foldl_cons,
      ih (dequeAppend cap acc x) (by rw [dequeAppend_length]; omega)]
    by_cases hc : acc.length + 1 ≤ cap
    · have h0 : dequeAppend cap acc x = acc ++ [x] := by
        have hz : (acc ++ [x]).length - cap = 0 := by
          simp only [List.length_append, List.length_cons, List.length_nil]
          omega
        show (acc ++ [x]).drop ((acc ++ [x]).length - cap) = acc ++ [x]
        rw [hz, List.drop_zero]
      rw [h0]
      simp [List.append_assoc]
    · have hk : (acc ++ [x]).length - cap ≤ (acc ++ [x]).length := Nat.sub_le _ _
      have h1 : dequeAppend cap acc x ++ t
          = ((acc ++ [x]) ++ t).drop ((acc ++ [x]).length - cap) := by
        show (acc ++ [x]).drop ((acc ++ [x]).length - cap) ++ t = _
        rw [List.drop_append_of_le_length hk]
      rw [h1, List.drop_drop]
      have h2 : (acc ++ [x]) ++ t = acc ++ x :: t := by simp
      rw [h2]
      congr 1
      simp only [List.length_drop, List.length_append, List.length_cons,
        List.length_nil]
      omega

theorem foldl_dequeAppend_length (ps : List ℚ) :
    (ps.foldl (dequeAppend windowCapacity) []).length = min windowCapacity ps.length := by
  rw [foldl_dequeAppend_suffix windowCapacity ps [] (by simp)]
  simp
  omega

theorem foldl_dequeAppend_of_le_capacity (ps : List ℚ)
    (h : ps.length ≤ windowCapacity) :
    ps.foldl (dequeAppend windowCapacity) [] = ps := by
  rw [foldl_dequeAppend_suffix windowCapacity ps [] (by simp)]
  simp only [List.nil_append]
  rw [Nat.sub_eq_zero_of_le h, List.drop_zero]

theorem calculate_average_prices (st : MonitorState) (now : ℕ) :
    (calculate_average st now).2.prices = st.prices := by
  rw [calculate_average]
  split <;> rfl

theorem get_bitcoin_price_all_fail (apis : List Adapter)
    (hall : ∀ a ∈ apis, a.fetch = none) :
    get_bitcoin_price apis = none := by
  induction apis with
  | nil => rfl
  | cons a rest ih =>
    have ha : a.fetch = none := hall a (by simp)
    rw [get_bitcoin_price, ha]
    exact ih (fun b hb => hall b (by simp [hb]))

theorem appendHistoryBatch_all_some (es : List (ℕ × Option PriceData)) :
    ∀ ps : List ℚ, (∀ e ∈ es, e.2.isSome) →
      appendHistoryBatch ps (es.map Prod.snd)
        = (recordedPrices es).foldl (dequeAppend windowCapacity) ps := by
  induction es with
  | nil => intro ps _; rfl
  | cons e rest ih =>
    intro ps hwf
    obtain ⟨d, hd⟩ := Option.isSome_iff_exists.mp (hwf e (by simp))
    have hrec : recordedPrices (e :: rest) = d.price :: recordedPrices rest := by
      simp [recordedPrices, hd]
    rw [List.map_cons, hd, hrec, List.foldl_cons]
    rw [show appendHistoryBatch ps (some d :: rest.map Prod.snd)
        = appendHistoryBatch (dequeAppend windowCapacity ps d.price)
            (rest.map Prod.snd) from rfl]
    exact ih _ (fun b hb => hwf b (by simp [hb]))

theorem collectPrices_all_some (es : List (ℕ × Option PriceData))
    (hwf : ∀ e ∈ es, e.2.isSome) :
    collectPrices (es.map Prod.snd) = some (recordedPrices es) := by
  induction es with
  | nil => rfl
  | cons e rest ih =>
    obtain ⟨d, hd⟩ := Option.isSome_iff_exists.mp (hwf e (by simp))
    have hrec : recordedPrices (e :: rest) = d.price :: recordedPrices rest := by
      simp [recordedPrices, hd]
    rw [List.map_cons, hd, hrec]
    rw [show collectPrices (some d :: rest.map Prod.snd)
        = (collectPrices (rest.map Prod.snd)).map (fun ps => d.price :: ps) from rfl]
    rw [ih (fun b hb => hwf b (by simp [hb]))]
    rfl

theorem recordedPrices_length (es : List (ℕ × Option PriceData))
    (hwf : ∀ e ∈ es, e.2.isSome) :
    (recordedPrices es).length = es.length := by
  induction es with
  | nil => rfl
  | cons e rest ih =>
    obtain ⟨d, hd⟩ := Option.isSome_iff_exists.mp (hwf e (by simp))
    have hrec : recordedPrices (e :: rest) = d.price :: recordedPrices rest := by
      simp [recordedPrices, hd]
    rw [hrec, List.length_cons, List.length_cons,
      ih (fun b hb => hwf b (by simp [hb]))]

theorem appendHistoryBatch_stops_at_malformed (ds : List PriceData)
    (rest : List (Option PriceData)) :
    ∀ ps : List ℚ,
      appendHistoryBatch ps (ds.map some ++ none :: rest)
        = (ds.map PriceData.price).foldl (dequeAppend windowCapacity) ps := by
  induction ds with
  | nil => intro ps; rfl
  | cons d t ih =>
    intro ps
    rw [List.map_cons, List.cons_append,
      show appendHistoryBatch ps (some d :: (t.map some ++ none :: rest))
        = appendHistoryBatch (dequeAppend windowCapacity ps d.price)
            (t.map some ++ none :: rest) from rfl,
      ih, List.map_cons, List.foldl_cons]

theorem collectPrices_stops_at_malformed (ds : List PriceData)
    (rest : List (Option PriceData)) :
    collectPrices (ds.map some ++ none :: rest) = none := by
  induction ds with
  | nil => rfl
  | cons d t ih =>
    rw [List.map_cons, List.cons_append,
      show collectPrices (some d :: (t.map some ++ none :: rest))
        = (collectPrices (t.map some ++ none :: rest)).map
            (fun ps => d.price :: ps) from rfl,
      ih]
    rfl

theorem run_monitor_cycle_prices (st : MonitorState) (p : ℚ) (s : String)
    (now mc : ℕ) :
    (run_monitor_cycle st (some (p, s)) now mc).1.prices
      = dequeAppend windowCapacity st.prices p := by
  simp only [run_monitor_cycle]
  split
  · rw [calculate_average_prices]
  · rfl

theorem run_monitor_successes_prices (fetches : List (ℚ × String × ℕ)) :
    ∀ (st : MonitorState) (mc : ℕ),
      (run_monitor_successes st mc fetches).1.prices
        = fetches.foldl (fun ps f => dequeAppend windowCapacity ps f.1) st.prices := by
  induction fetches with
  | nil => intro st mc; rfl
  | cons f rest ih =>
    intro st mc
    rw [show run_monitor_successes st mc (f :: rest)
        = run_monitor_successes (run_monitor_cycle st (some (f.1, f.2.1)) f.2.2 mc).1
            (run_monitor_cycle st (some (f.1, f.2.1)) f.2.2 mc).2 rest from rfl,
      ih, List.foldl_cons, run_monitor_cycle_prices]

/-! ### Claims -/

/-- C1: `get_bitcoin_price` tries the configured adapters in their fixed
list order and returns the price and name of the first adapter that
succeeds, combining nothing across sources; in particular, with a failing
first adapter and a second returning 50000, it returns
`(50000, second adapter's name)` (see the witness). -/
theorem get_bitcoin_price_first_success
    (pre : List Adapter) (a : Adapter) (post : List Adapter) (p : ℚ)
    (hpre : ∀ b ∈ pre, b.fetch = none) (ha : a.fetch = some p) :
    get_bitcoin_price (pre ++ a :: post) = some (p, a.name) := by
  induction pre with
  | nil =>
    rw [List.nil_append, get_bitcoin_price, ha]
  | cons b bs ih =>
    have hb : b.fetch = none := hpre b (by simp)
    rw [List.cons_append, get_bitcoin_price, hb]
    exact ih (fun c hc => hpre c (by simp [hc]))

theorem get_bitcoin_price_first_success_witness :
    get_bitcoin_price
        [{ name := "CoinGecko", fetch := none },
         { name := "CoinDesk", fetch := some 50000 }]
      = some (50000, "CoinDesk") :=
  get_bitcoin_price_first_success [{ name := "CoinGecko", fetch := none }]
    { name := "CoinDesk", fetch := some 50000 } [] 50000 (by decide) rfl

/-- C2: a monitor cycle in which every adapter fails (so
`get_bitcoin_price` returns the `(None, None)` sentinel, here `none`)
returns the input state itself and the unchanged minute counter: the
current price, rolling window, cached average, last-average-calculation
time, last-updated time, current source and the Redis handle with all its
contents are exactly as before, and no durable write happens. -/
theorem run_monitor_cycle_all_fail_frame
    (st : MonitorState) (apis : List Adapter) (now mc : ℕ)
    (hall : ∀ a ∈ apis, a.fetch = none) :
    run_monitor_cycle st (get_bitcoin_price apis) now mc = (st, mc) := by
  rw [get_bitcoin_price_all_fail apis hall]
  rfl

theorem run_monitor_cycle_all_fail_frame_witness :
    run_monitor_cycle (emptyState none)
        (get_bitcoin_price [{ name := "CoinGecko", fetch := none }]) 5 3
      = (emptyState none, 3) :=
  run_monitor_cycle_all_fail_frame (emptyState none)
    [{ name := "CoinGecko", fetch := none }] 5 3 (by decide)

/-- C7: immediately after `save_to_redis` completes its append-and-prune
write, every entry left in the persisted history has a score strictly less
than 600 seconds old relative to the append time; in particular none is
older than the retention horizon. -/
theorem save_to_redis_prunes_horizon (rc : Option RedisStore) (now : ℕ)
    (price : ℚ) (source : String) :
    ((historyOf (save_to_redis rc now price source)).all
      (fun e => decide (now - e.1 < retentionSeconds))) = true := by
  cases rc with
  | none => rfl
  | some r =>
    simp only [save_to_redis, historyOf, List.all_eq_true, List.mem_filter,
      retentionSeconds, decide_eq_true_eq, Bool.not_eq_eq_eq_not,
      Bool.not_true, decide_eq_false_iff_not, not_le]
    intro e he
    omega

/-- C10: the health endpoint reports overall status "healthy" exactly when
a current price is present, and "unhealthy" exactly when it is absent,
independently of the Redis handle (which the status expression never
consults). -/
theorem health_check_healthy_iff_price (st : MonitorState) :
    ((health_check st).status = "healthy" ↔ st.current_price.isSome = true)
    ∧ ((health_check st).status = "unhealthy" ↔ st.current_price = none) := by
  cases h : st.current_price <;> simp [health_check, h]

/-- C3: starting from an empty rolling window, after any sequence of n
successful fetch cycles the window's length is min(10, n), and after every
prefix of the sequence the length never exceeds the capacity 10. -/
theorem rolling_window_size_bounded
    (st : MonitorState) (mc : ℕ) (fetches : List (ℚ × String × ℕ))
    (hempty : st.prices = []) :
    ((run_monitor_successes st mc fetches).1.prices.length
        = min windowCapacity fetches.length)
    ∧ ∀ n : ℕ,
        (run_monitor_successes st mc (fetches.take n)).1.prices.length
          ≤ windowCapacity := by
  have key : ∀ l : List (ℚ × String × ℕ),
      (run_monitor_successes st mc l).1.prices.length = min windowCapacity l.length := by
    intro l
    rw [run_monitor_successes_prices, hempty,
      show (fun (ps : List ℚ) (f : ℚ × String × ℕ) => dequeAppend windowCapacity ps f.1)
        = (fun ps f => (fun a b => dequeAppend windowCapacity a b) ps ((fun f => f.1) f))
        from rfl,
      ← List.foldl_map, foldl_dequeAppend_length, List.length_map]
  refine ⟨key fetches, fun n => ?_⟩
  rw [key (fetches.take n)]
  omega

theorem rolling_window_size_bounded_witness :
    (((run_monitor_successes (emptyState none) 0
          [(100, "CoinGecko", 0), (200, "CoinDesk", 60)]).1.prices.length
        = min windowCapacity 2)
    ∧ ∀ n : ℕ,
        (run_monitor_successes (emptyState none) 0
            ([(100, "CoinGecko", 0), (200, "CoinDesk", 60)].take n)).1.prices.length
          ≤ windowCapacity) := by
  have h := rolling_window_size_bounded (emptyState none) 0
    [(100, "CoinGecko", 0), (200, "CoinDesk", 60)] rfl
  simpa using h

/-- C4: once `calculate_average` has actually recomputed (at a time when a
recompute was due), every further call within the next 600 seconds returns
the cached value with the state untouched, `_should_recalculate_average`
answers false, and the `/service-a` response built in that span omits the
`average_10min` field entirely and leaves the monitor unchanged. -/
theorem average_not_recomputed_within_window
    (st : MonitorState) (t0 t : ℕ)
    (hdue : should_recalculate_average st t0 = true)
    (ht : t - t0 < retentionSeconds) :
    calculate_average (calculate_average st t0).2 t
        = ((calculate_average st t0).2.cached_average, (calculate_average st t0).2)
    ∧ should_recalculate_average (calculate_average st t0).2 t = false
    ∧ (∀ resp ∈ (get_current_price (calculate_average st t0).2 t).1,
        resp.average_10min = none)
    ∧ (get_current_price (calculate_average st t0).2 t).2
        = (calculate_average st t0).2 := by
  have hlast : (calculate_average st t0).2.last_average_calculation = some t0 := by
    simp [calculate_average, hdue]
  have hshould : should_recalculate_average (calculate_average st t0).2 t = false := by
    unfold should_recalculate_average
    rw [hlast]
    simp only [retentionSeconds] at ht ⊢
    simp only [decide_eq_false_iff_not, not_le]
    omega
  have hcalc : calculate_average (calculate_average st t0).2 t
      = ((calculate_average st t0).2.cached_average, (calculate_average st t0).2) := by
    rw [calculate_average, hshould]
    rfl
  refine ⟨hcalc, hshould, ?_, ?_⟩
  · intro resp hresp
    cases hc : (calculate_average st t0).2.current_price with
    | none => simp [get_current_price, hc] at hresp
    | some p =>
      simp only [get_current_price, hc, hshould, Bool.false_eq_true, if_false,
        Option.mem_def, Option.some_inj] at hresp
      rw [← hresp]
  · cases hc : (calculate_average st t0).2.current_price with
    | none => simp [get_current_price, hc]
    | some p => simp [get_current_price, hc, hshould]

theorem average_not_recomputed_within_window_witness :
    (calculate_average (calculate_average (emptyState none) 0).2 599
        = ((calculate_average (emptyState none) 0).2.cached_average,
           (calculate_average (emptyState none) 0).2)
    ∧ should_recalculate_average (calculate_average (emptyState none) 0).2 599 = false
    ∧ (∀ resp ∈ (get_current_price (calculate_average (emptyState none) 0).2 599).1,
        resp.average_10min = none)
    ∧ (get_current_price (calculate_average (emptyState none) 0).2 599).2
        = (calculate_average (emptyState none) 0).2) :=
  average_not_recomputed_within_window (emptyState none) 0 599 rfl (by decide)

/-- C6: on construction with a reachable store holding a well-formed
snapshot, rehydration loads the snapshot into the current-price fields and
folds the in-horizon history (ascending by score) into the window; when
more than 10 in-horizon points exist, exactly the newest 10 of them, in
oldest-to-newest order, end up in the window. -/
theorem init_rehydrates_snapshot_and_window
    (r : RedisStore) (d : PriceData) (now : ℕ)
    (hcur : r.current = some (some d))
    (hwf : ∀ e ∈ zrangeSince r.history now, e.2.isSome)
    (_hsorted : List.Sorted (· ≤ ·) (r.history.map Prod.fst))
    (hmany : windowCapacity < (zrangeSince r.history now).length) :
    (initState (some r) now).current_price = some d.price
    ∧ (initState (some r) now).current_source = some d.source
    ∧ (initState (some r) now).last_updated = some d.timestamp
    ∧ (initState (some r) now).prices
        = (recordedPrices (zrangeSince r.history now)).drop
            ((recordedPrices (zrangeSince r.history now)).length - windowCapacity)
    ∧ (initState (some r) now).prices.length = windowCapacity := by
  have hlen : (recordedPrices (zrangeSince r.history now)).length
      = (zrangeSince r.history now).length :=
    recordedPrices_length _ hwf
  have hprices : (initState (some r) now).prices
      = (recordedPrices (zrangeSince r.history now)).drop
          ((recordedPrices (zrangeSince r.history now)).length - windowCapacity) := by
    have h1 : (initState (some r) now).prices
        = appendHistoryBatch [] ((zrangeSince r.history now).map Prod.snd) := by
      simp [initState, load_from_redis, emptyState, hcur]
    rw [h1, appendHistoryBatch_all_some _ [] hwf,
      foldl_dequeAppend_suffix windowCapacity _ [] (by simp)]
    simp
  refine ⟨?_, ?_, ?_, hprices, ?_⟩
  · simp [initState, load_from_redis, emptyState, hcur]
  · simp [initState, load_from_redis, emptyState, hcur]
  · simp [initState, load_from_redis, emptyState, hcur]
  · rw [hprices, List.length_drop]
    omega

theorem init_rehydrates_snapshot_and_window_witness :
    ((initState (some elevenPointStore) 600).current_price = some (42 : ℚ)
    ∧ (initState (some elevenPointStore) 600).current_source = some "CoinDesk"
    ∧ (initState (some elevenPointStore) 600).last_updated = some 12
    ∧ (initState (some elevenPointStore) 600).prices
        = (recordedPrices (zrangeSince elevenPointStore.history 600)).drop
            ((recordedPrices (zrangeSince elevenPointStore.history 600)).length
              - windowCapacity)
    ∧ (initState (some elevenPointStore) 600).prices.length = windowCapacity) :=
  init_rehydrates_snapshot_and_window elevenPointStore ⟨42, "CoinDesk", 12⟩ 600
    rfl (by decide) (by decide) (by decide)

/-- C5 counterexample: with eleven in-horizon observations (prices 1100
then ten zeros) and an empty window, the cold-start average taken through
the Redis range fallback is 100, while appending the same observations to
the in-memory rolling window and averaging yields 0: the two disagree far
beyond rounding. -/
theorem cold_start_average_counterexample :
    (calculate_average (emptyState (some elevenPointStore)) 600).1 = 100
    ∧ inMemoryWindowAverage
        (recordedPrices (zrangeSince elevenPointStore.history 600)) = 0
    ∧ (calculate_average (emptyState (some elevenPointStore)) 600).1
        ≠ inMemoryWindowAverage
            (recordedPrices (zrangeSince elevenPointStore.history 600)) := by
  have hra : get_redis_average (some elevenPointStore) 600 = some 100 := by
    rw [show get_redis_average (some elevenPointStore) 600
        = some (([1100, 0, 0, 0, 0, 0, 0, 0, 0, 0, 0] : List ℚ).sum
            / (([1100, 0, 0, 0, 0, 0, 0, 0, 0, 0, 0] : List ℚ).length : ℚ)) from rfl]
    norm_num
  have hca : (calculate_average (emptyState (some elevenPointStore)) 600).1 = 100 := by
    simp [calculate_average, should_recalculate_average, emptyState, hra]
  have h2 : recordedPrices (zrangeSince elevenPointStore.history 600)
      = [1100, 0, 0, 0, 0, 0, 0, 0, 0, 0, 0] := by decide
  have h3 : ([1100, 0, 0, 0, 0, 0, 0, 0, 0, 0, 0] : List ℚ).foldl
      (dequeAppend windowCapacity) [] = [0, 0, 0, 0, 0, 0, 0, 0, 0, 0] := by decide
  have hw : inMemoryWindowAverage
      (recordedPrices (zrangeSince elevenPointStore.history 600)) = 0 := by
    rw [h2]
    simp [inMemoryWindowAverage, h3]
  refine ⟨hca, hw, ?_⟩
  rw [hca, hw]
  norm_num

/-- C5 amended: the cold-start fallback average agrees exactly with the
in-memory window average of the same observations whenever the in-horizon
history is non-empty, well-formed, and holds at most windowCapacity (10)
points, so that the window evicts nothing. -/
theorem cold_start_average_matches_window_within_capacity
    (r : RedisStore) (st : MonitorState) (now : ℕ)
    (hprices : st.prices = [])
    (hrc : st.redis_client = some r)
    (hdue : should_recalculate_average st now = true)
    (hwf : ∀ e ∈ zrangeSince r.history now, e.2.isSome)
    (hne : zrangeSince r.history now ≠ [])
    (hcap : (zrangeSince r.history now).length ≤ windowCapacity) :
    (calculate_average st now).1
      = inMemoryWindowAverage (recordedPrices (zrangeSince r.history now)) := by
  have hlen : (recordedPrices (zrangeSince r.history now)).length
      = (zrangeSince r.history now).length :=
    recordedPrices_length _ hwf
  have hbe : ((zrangeSince r.history now).map Prod.snd).isEmpty = false := by
    cases h : zrangeSince r.history now with
    | nil => exact absurd h hne
    | cons a t => rfl
  have hredis : get_redis_average (some r) now
      = some ((recordedPrices (zrangeSince r.history now)).sum
          / ((recordedPrices (zrangeSince r.history now)).length : ℚ)) := by
    simp only [get_redis_average, hbe, Bool.false_eq_true, if_false,
      collectPrices_all_some _ hwf]
  have hlen0 : (recordedPrices (zrangeSince r.history now)).length ≠ 0 := by
    rw [hlen]
    intro h0
    exact hne (List.length_eq_zero.mp h0)
  have hfold : (recordedPrices (zrangeSince r.history now)).foldl
      (dequeAppend windowCapacity) [] = recordedPrices (zrangeSince r.history now) :=
    foldl_dequeAppend_of_le_capacity _ (by rw [hlen]; exact hcap)
  have hwin : inMemoryWindowAverage (recordedPrices (zrangeSince r.history now))
      = (recordedPrices (zrangeSince r.history now)).sum
          / ((recordedPrices (zrangeSince r.history now)).length : ℚ) := by
    simp only [inMemoryWindowAverage, hfold]
    rw [if_neg hlen0]
  have hcalc : (calculate_average st now).1
      = (match get_redis_average (some r) now with
         | none => (0 : ℚ)
         | some a => if a = 0 then 0 else a) := by
    simp only [calculate_average, hdue, Bool.not_true, Bool.false_eq_true,
      if_false, hprices, List.length_nil, lt_self_iff_false, hrc]
  rw [hcalc, hredis]
  show (if (recordedPrices (zrangeSince r.history now)).sum
      / ((recordedPrices (zrangeSince r.history now)).length : ℚ) = 0 then (0 : ℚ)
    else (recordedPrices (zrangeSince r.history now)).sum
      / ((recordedPrices (zrangeSince r.history now)).length : ℚ))
    = inMemoryWindowAverage (recordedPrices (zrangeSince r.history now))
  rw [hwin]
  by_cases hz : (recordedPrices (zrangeSince r.history now)).sum
      / ((recordedPrices (zrangeSince r.history now)).length : ℚ) = 0
  · rw [if_pos hz, hz]
  · rw [if_neg hz]

theorem cold_start_average_matches_window_witness :
    (calculate_average (emptyState (some twoPointStore)) 600).1
      = inMemoryWindowAverage (recordedPrices (zrangeSince twoPointStore.history 600)) :=
  cold_start_average_matches_window_within_capacity twoPointStore
    (emptyState (some twoPointStore)) 600 rfl rfl rfl (by decide) (by decide) (by decide)

/-- C8 counterexample: with the in-horizon batch good(10), malformed,
good(20), rehydration keeps only the records before the malformed one (the
window ends up [10], the later well-formed 20 is dropped), and the range
read used for the average fallback abandons the whole batch and returns no
value; so a bad record does abort the remainder of the batch. -/
theorem malformed_record_skip_counterexample :
    (initState (some malformedMiddleStore) 600).prices = [10]
    ∧ ¬ (20 : ℚ) ∈ (initState (some malformedMiddleStore) 600).prices
    ∧ get_redis_average (some malformedMiddleStore) 600 = none := by
  refine ⟨by decide, by decide, by decide⟩

/-- C8 amended: a malformed persisted record aborts the remainder of its
batch rather than being skipped: rehydration keeps exactly the records
preceding the first malformed one and drops all later ones, and the
range-read average abandons the entire batch, yielding no value (in both
cases the failure is swallowed, not propagated). -/
theorem malformed_record_aborts_batch
    (r : RedisStore) (now : ℕ) (pre : List PriceData)
    (rest : List (Option PriceData))
    (hcur : r.current = none)
    (hbatch : (zrangeSince r.history now).map Prod.snd
        = pre.map some ++ none :: rest) :
    (initState (some r) now).prices
        = (pre.map PriceData.price).foldl (dequeAppend windowCapacity) []
    ∧ get_redis_average (some r) now = none := by
  constructor
  · have h1 : (initState (some r) now).prices
        = appendHistoryBatch [] ((zrangeSince r.history now).map Prod.snd) := by
      simp [initState, load_from_redis, emptyState, hcur]
    rw [h1, hbatch, appendHistoryBatch_stops_at_malformed]
  · have hbe2 : (pre.map some ++ (none : Option PriceData) :: rest).isEmpty = false := by
      cases pre <;> rfl
    simp only [get_redis_average, hbatch, hbe2, Bool.false_eq_true, if_false,
      collectPrices_stops_at_malformed]

theorem malformed_record_aborts_batch_witness :
    ((initState (some malformedMiddleStore) 600).prices
        = (([⟨10, "CoinGecko", 1⟩] : List PriceData).map PriceData.price).foldl
            (dequeAppend windowCapacity) []
    ∧ get_redis_average (some malformedMiddleStore) 600 = none) :=
  malformed_record_aborts_batch malformedMiddleStore 600
    [⟨10, "CoinGecko", 1⟩] [some ⟨20, "CoinGecko", 3⟩] rfl (by decide)

/-- C9 counterexample: a syntactically valid CoinGecko payload carrying a
negative number is accepted by the parser and flows through
`get_bitcoin_price` unchanged: the returned price is -1, which is not
strictly greater than zero. -/
theorem parsed_price_positive_counterexample :
    parse_coingecko negativePayload = some (-1)
    ∧ get_bitcoin_price
        [{ name := "CoinGecko", fetch := parse_coingecko negativePayload }]
        = some (-1, "CoinGecko")
    ∧ ¬ ((0 : ℚ) < -1) := by
  refine ⟨rfl, rfl, by norm_num⟩

/-- C9 amended: no positivity validation exists anywhere on the path; the
parsed price is the payload's `bitcoin.usd` numeric value verbatim and
`get_bitcoin_price` returns it unchanged, so the produced observation's
price is strictly positive exactly when the upstream payload's value is. -/
theorem parse_coingecko_echoes_payload
    (fields gfields : List (String × Json)) (q : ℚ) (nm : String)
    (rest : List Adapter)
    (hb : (Json.obj fields).get? "bitcoin" = some (Json.obj gfields))
    (hu : (Json.obj gfields).get? "usd" = some (Json.num q)) :
    parse_coingecko (Json.obj fields) = some q
    ∧ get_bitcoin_price
        ({ name := nm, fetch := parse_coingecko (Json.obj fields) } :: rest)
        = some (q, nm)
    ∧ (0 < q → ∀ p, parse_coingecko (Json.obj fields) = some p → 0 < p) := by
  have hp : parse_coingecko (Json.obj fields) = some q := by
    rw [parse_coingecko, hb]
    simp [hu, pyFloat]
  refine ⟨hp, ?_, ?_⟩
  · rw [get_bitcoin_price]
    simp [hp]
  · intro hq p hpp
    rw [hp] at hpp
    exact (Option.some.inj hpp) ▸ hq

theorem parse_coingecko_echoes_payload_witness :
    (parse_coingecko (Json.obj [("bitcoin", Json.obj [("usd", Json.num 50000)])])
        = some 50000
    ∧ get_bitcoin_price
        [{ name := "CoinGecko",
           fetch := parse_coingecko
             (Json.obj [("bitcoin", Json.obj [("usd", Json.num 50000)])]) }]
        = some (50000, "CoinGecko")
    ∧ ((0 : ℚ) < 50000 → ∀ p,
        parse_coingecko (Json.obj [("bitcoin", Json.obj [("usd", Json.num 50000)])])
          = some p → 0 < p)) :=
  parse_coingecko_echoes_payload [("bitcoin", Json.obj [("usd", Json.num 50000)])]
    [("usd", Json.num 50000)] 50000 "CoinGecko" [] rfl rfl

end ServiceA
